import Mathlib

/-!
Verification of the orchestration layer of `video-dl` (`src/main.py`), a thin
wrapper around an external download engine.  The Python code the claims
concern is embedded shallowly below: Python strings are modelled as
`List Char` where index arithmetic matters (so `str.rindex`, negative-index
slicing and `str.rsplit` can be stated exactly) and as `String` where only
whole messages are built; code that can raise an exception returns `Option`.
-/

namespace VideoDL

/-- Python's extended slice `L[start::step]` for `step ≥ 1`, as used by
`run()` (src/main.py:387) in `all_links[x::settings['threads']]`: the
elements of `L` at indices `start, start + step, start + 2*step, …`,
in order. -/
def pySlice (L : List α) (start step : Nat) : List α :=
  (List.range L.length).filterMap fun i =>
    if start ≤ i ∧ (i - start) % step = 0 then L[i]? else none

theorem mem_pySlice {L : List α} {start step : Nat} {a : α} :
    a ∈ pySlice L start step ↔
      ∃ i, start ≤ i ∧ (i - start) % step = 0 ∧ L[i]? = some a := by
  unfold pySlice
  simp only [List.mem_filterMap, List.mem_range]
  constructor
  · rintro ⟨i, _, h⟩
    split at h
    · rename_i hc
      exact ⟨i, hc.1, hc.2, h⟩
    · simp at h
  · rintro ⟨i, h1, h2, h3⟩
    have hi : i < L.length := by
      by_contra hlen
      push_neg at hlen
      rw [List.getElem?_eq_none hlen] at h3
      simp at h3
    exact ⟨i, hi, by rw [if_pos ⟨h1, h2⟩]; exact h3⟩

theorem mod_eq_of_slice_index {x i step : Nat} (hx : x < step) (hle : x ≤ i)
    (hmod : (i - x) % step = 0) : i % step = x := by
  obtain ⟨k, hk⟩ : step ∣ (i - x) := Nat.dvd_of_mod_eq_zero hmod
  have hi : i = x + step * k := by omega
  subst hi
  rw [Nat.add_mul_mod_self_left, Nat.mod_eq_of_lt hx]

/-- C1: for every link list `L` and thread count `N ≥ 1`, the round-robin
partition built by `run()` (the slices `L[x::N]` for `x = 0, …, N-1`, link
`i` going to worker `i mod N`) loses no link and duplicates no link: every
element of `L` lies in some slice and every slice element comes from `L`
(union of the partitions = original list, ignoring order), and when the
entries of `L` are distinct the slices are pairwise disjoint. -/
theorem run_partition_roundRobin (L : List α) (N : Nat) (hN : 1 ≤ N) :
    (∀ a : α, a ∈ L ↔ ∃ x, x < N ∧ a ∈ pySlice L x N) ∧
    (L.Nodup → ∀ x y, x < N → y < N → x ≠ y →
      ∀ a, a ∈ pySlice L x N → a ∉ pySlice L y N) := by
  constructor
  · intro a
    constructor
    · intro ha
      obtain ⟨i, hi, hget⟩ := List.mem_iff_getElem.1 ha
      refine ⟨i % N, Nat.mod_lt _ (by omega), ?_⟩
      rw [mem_pySlice]
      refine ⟨i, Nat.mod_le i N, ?_, by rw [List.getElem?_eq_some]; exact ⟨hi, hget⟩⟩
      have hdm := Nat.div_add_mod i N
      have hsub : i - i % N = N * (i / N) := by omega
      rw [hsub, Nat.mul_mod_right]
    · rintro ⟨x, _, hmem⟩
      rw [mem_pySlice] at hmem
      obtain ⟨i, _, _, h3⟩ := hmem
      obtain ⟨hi, hget⟩ := List.getElem?_eq_some.1 h3
      exact hget ▸ List.getElem_mem hi
  · intro hnd x y hx hy hxy a hax hay
    rw [mem_pySlice] at hax hay
    obtain ⟨i, hxi, hxm, hi⟩ := hax
    obtain ⟨j, hyj, hym, hj⟩ := hay
    obtain ⟨hilt, higet⟩ := List.getElem?_eq_some.1 hi
    obtain ⟨hjlt, hjget⟩ := List.getElem?_eq_some.1 hj
    have hij : i = j := by
      have hinj := List.nodup_iff_injective_getElem.1 hnd
      have hfin : (⟨i, hilt⟩ : Fin L.length) = ⟨j, hjlt⟩ := by
        apply hinj
        simp [higet, hjget]
      simpa using hfin
    apply hxy
    rw [← mod_eq_of_slice_index hx hxi hxm, ← mod_eq_of_slice_index hy hyj hym, hij]

/-- A concrete three-link list used to instantiate the partition theorem. -/
def sampleLinks : List String := ["u1", "u2", "u3"]

/-- Witness for C1: the partition property instantiated at a concrete list of
three distinct URLs and thread count `N = 2`. -/
theorem run_partition_roundRobin_witness :
    (∀ a : String, a ∈ sampleLinks ↔ ∃ x, x < 2 ∧ a ∈ pySlice sampleLinks x 2) ∧
    (sampleLinks.Nodup → ∀ x y, x < 2 → y < 2 → x ≠ y →
      ∀ a, a ∈ pySlice sampleLinks x 2 → a ∉ pySlice sampleLinks y 2) :=
  run_partition_roundRobin sampleLinks 2 (by decide)

/-- Helper for `splitNl`: prepend a character to the first segment. -/
def consHead (c : Char) : List (List Char) → List (List Char)
  | [] => [[c]]
  | l :: ls => (c :: l) :: ls

/-- Python's `str.split('\n')` on a string modelled as a character list.
Like Python's `split` (and unlike a "lines" function) it keeps empty
segments: `"a\n".split('\n') == ['a', '']` and `"".split('\n') == ['']`. -/
def splitNl : List Char → List (List Char)
  | [] => [[]]
  | c :: rest =>
    if c = '\n' then [] :: splitNl rest
    else consHead c (splitNl rest)

/-- `parse_links` (src/main.py:52-60):
`list(map(lambda x: [x, ''], file.read().split('\n')))` — one `[url, '']`
entry per `'\n'`-separated segment of the file content, with the
resolved-filename component initially empty. -/
def parse_links (content : List Char) : List (List Char × List Char) :=
  (splitNl content).map fun x => (x, [])

theorem splitNl_length (cs : List Char) :
    (splitNl cs).length = cs.count '\n' + 1 := by
  induction cs with
  | nil => simp [splitNl]
  | cons c rest ih =>
    by_cases hc : c = '\n'
    · subst hc
      simp [splitNl, List.count_cons, ih]
    · cases h : splitNl rest with
      | nil => rw [h] at ih; simp at ih
      | cons l ls =>
        rw [h] at ih
        have hs : splitNl (c :: rest) = (c :: l) :: ls := by
          simp only [splitNl, if_neg hc, h, consHead]
        rw [hs]
        have hcount : List.count '\n' (c :: rest) = List.count '\n' rest := by
          simp [List.count_cons, hc]
        rw [hcount]
        simpa using ih

/-- Counterexample for C2 as stated: the file content `"a\n"` has exactly one
non-empty line, but `parse_links` produces two entries — the trailing empty
segment after the final newline also becomes a `LinkEntry`, because Python's
`split('\n')` keeps empty segments. -/
theorem parse_links_counterexample :
    (parse_links ('a' :: '\n' :: [])).length = 2 ∧
    ((splitNl ('a' :: '\n' :: [])).filter (fun l => !l.isEmpty)).length = 1 := by
  decide

/-- C2 (amended): `parse_links` produces exactly one `LinkEntry` per
`'\n'`-separated segment of the file content — that is, (number of `'\n'`
characters) + 1 entries, with empty lines producing entries too — each entry
carrying its segment as the URL and an unset (empty) resolved filename. -/
theorem parse_links_entry_per_segment (content : List Char) :
    (parse_links content).length = content.count '\n' + 1 ∧
    (∀ e ∈ parse_links content, e.2 = []) ∧
    (parse_links content).map Prod.fst = splitNl content := by
  refine ⟨?_, ?_, ?_⟩
  · rw [parse_links, List.length_map, splitNl_length]
  · intro e he
    obtain ⟨x, _, rfl⟩ := List.mem_map.1 he
    rfl
  · rw [parse_links]
    induction splitNl content with
    | nil => rfl
    | cons l rest ih => simp only [List.map_cons, ih]

/-- `Downloader._set_subs` (src/main.py:263-274): `if no_sub: return False;
return True if not settings['novideo'] else False`. -/
def set_subs (novideo : Bool) (no_sub : Bool) : Bool :=
  if no_sub then false
  else if !novideo then true else false

/-- The `writesubtitles` value built in `Downloader.__init__`
(src/main.py:156): the call is `self._set_subs()`, so `no_sub` keeps its
default value `False`; `settings['nosub']` is never consulted, which is why
this definition cannot even depend on the nosub setting. -/
def init_writesubtitles (novideo : Bool) : Bool := set_subs novideo false

/-- The `writeautomaticsub` value built in `Downloader.__init__`
(src/main.py:157): likewise `self._set_subs()` with the default argument. -/
def init_writeautomaticsub (novideo : Bool) : Bool := set_subs novideo false

/-- C4, evaluated at the failing input (`novideo = false`, `nosub = true`):
the claim (and the program's own `--nosub` help text, "Disables Subtitles")
requires both subtitle flags to be `false` when the subtitle-disable flag is
set in video mode, but `Downloader.__init__` calls `_set_subs()` without an
argument, so both flags come out `true`; the third conjunct shows the helper
itself would honour `no_sub = true` had it been passed. -/
theorem subtitle_flags_ignore_nosub :
    init_writesubtitles false = true ∧ init_writeautomaticsub false = true ∧
    set_subs false true = false := by decide

/-- Python's `str.rindex(c)`: the index of the last occurrence of `c`, or
`none` where Python raises `ValueError` (no occurrence).  Used by
`Downloader._my_hook` (src/main.py:194) as `filename.rindex('.')`. -/
def rindexOf (c : Char) : List Char → Option Nat
  | [] => none
  | a :: rest =>
    match rindexOf c rest with
    | some i => some (i + 1)
    | none => if a = c then some 0 else none

/-- Python's slice `s[i:]` for a possibly negative `i`: a negative index
counts from the end of the string, clamped at the start. -/
def pySliceFrom (i : Int) (cs : List Char) : List Char :=
  if 0 ≤ i then cs.drop i.toNat else cs.drop ((cs.length : Int) + i).toNat

/-- The short display name computed by `Downloader._my_hook`
(src/main.py:194): `filename if len(filename) < 25 else filename[:25] + '...'
+ filename[filename.rindex('.')-5:]`. `none` models the `ValueError` Python
raises when a filename of length ≥ 25 contains no `'.'`. -/
def short_filename (f : List Char) : Option (List Char) :=
  if f.length < 25 then some f
  else
    match rindexOf '.' f with
    | none => none
    | some d =>
      some (f.take 25 ++ ('.' :: '.' :: '.' :: []) ++ pySliceFrom ((d : Int) - 5) f)

/-- Counterexample for C7 as stated: a 25-character filename with no `'.'` is
at the threshold, but instead of the claimed `first 25 + "..." + suffix`
display the code raises `ValueError` (`filename.rindex('.')` on a dot-free
name), so no short name at all is produced. -/
theorem short_filename_counterexample :
    short_filename (List.replicate 25 'a') = none ∧
    25 ≤ (List.replicate 25 'a').length := by decide

/-- C7 (amended): filenames shorter than 25 characters are displayed
unmodified; a filename of length ≥ 25 whose last `'.'` sits at index `d ≥ 5`
is displayed as its first 25 characters, then `"..."`, then the suffix from
5 characters before the final dot (so the extension is preserved); when the
last `'.'` sits at index `d < 5` Python's negative-index slicing makes the
appended suffix the last `5 - d` characters of the whole name instead (the
extension is not preserved there), and a dot-free long name raises
`ValueError` (`short_filename_counterexample`). -/
theorem short_filename_truncation :
    (∀ f : List Char, f.length < 25 → short_filename f = some f) ∧
    (∀ (f : List Char) (d : Nat), 25 ≤ f.length → rindexOf '.' f = some d → 5 ≤ d →
      short_filename f = some (f.take 25 ++ ('.' :: '.' :: '.' :: []) ++ f.drop (d - 5))) ∧
    (∀ (f : List Char) (d : Nat), 25 ≤ f.length → rindexOf '.' f = some d → d < 5 →
      short_filename f =
        some (f.take 25 ++ ('.' :: '.' :: '.' :: []) ++ f.drop (f.length + d - 5))) := by
  refine ⟨?_, ?_, ?_⟩
  · intro f h
    rw [short_filename, if_pos h]
  · intro f d hlen hr hd
    rw [short_filename, if_neg (by omega), hr]
    dsimp only
    unfold pySliceFrom
    rw [if_pos (by omega : (0 : Int) ≤ (d : Int) - 5)]
    have ht : ((d : Int) - 5).toNat = d - 5 := by omega
    rw [ht]
  · intro f d hlen hr hd
    rw [short_filename, if_neg (by omega), hr]
    dsimp only
    unfold pySliceFrom
    rw [if_neg (by omega : ¬(0 : Int) ≤ (d : Int) - 5)]
    have ht : ((f.length : Int) + ((d : Int) - 5)).toNat = f.length + d - 5 := by omega
    rw [ht]

/-- The three `if hours: / if minutes: / if seconds:` accumulation lines of
`Downloader._parse_time` (src/main.py:231-233): each nonzero unit appends
`"N unit[s] "` to `out`. -/
def time_units (hours minutes seconds : Nat) : String :=
  (if hours = 0 then "" else
    toString hours ++ " hour" ++ (if 1 < hours then "s" else "") ++ " ")
  ++ (if minutes = 0 then "" else
    toString minutes ++ " minute" ++ (if 1 < minutes then "s" else "") ++ " ")
  ++ (if seconds = 0 then "" else
    toString seconds ++ " second" ++ (if 1 < seconds then "s" else "") ++ " ")

/-- `Downloader._parse_time` (src/main.py:227-234), with the ETA in seconds
(`_my_hook` passes `datetime.timedelta(seconds=round(e.get('eta') or 0))`).
For `eta < 86400`, `str(timedelta)` is `'H:MM:SS'` with `H = eta // 3600`,
`MM = eta % 3600 // 60`, `SS = eta % 60`, which the code splits on `':'` and
parses back with `int`.  For `eta ≥ 86400`, `str(timedelta)` is
`'D day[s], H:MM:SS'`, so `int('D day[s], H')` raises `ValueError`: `none`.
The guard `if time:` is Python truthiness of the timedelta, i.e. `eta ≠ 0`,
and the code returns `out + 'left' if out else ''`. -/
def parse_time (eta : Nat) : Option String :=
  if 86400 ≤ eta then none
  else
    let out : String :=
      if eta = 0 then "" else time_units (eta / 3600) (eta % 3600 / 60) (eta % 60)
    some (if out ≠ "" then out ++ "left" else "")

/-- Rendering of one unit of the spec's format string
"`H hour(s) M minute(s) S second(s) left`": `"N name[s] "` when the count is
nonzero, omitted when zero. -/
def spec_unit (n : Nat) (name : String) : String :=
  if n = 0 then "" else toString n ++ name ++ (if 1 < n then "s" else "") ++ " "

/-- The remaining-time text as the spec words it: hours, minutes and seconds
with singular/plural unit names, zero-valued units omitted, followed by
`"left"`; the empty string when there is no ETA. -/
def spec_time_left_format (eta : Nat) : String :=
  if eta = 0 then ""
  else
    spec_unit (eta / 3600) " hour" ++ spec_unit (eta % 3600 / 60) " minute"
      ++ spec_unit (eta % 60) " second" ++ "left"

theorem eq_empty_of_length_zero {s : String} (h : s.length = 0) : s = "" := by
  cases s with
  | mk data =>
    cases data with
    | nil => rfl
    | cons c rest => simp [String.length] at h

theorem append_ne_empty_right (a b : String) (hb : b ≠ "") : a ++ b ≠ "" := by
  intro hab
  apply hb
  have hl := congrArg String.length hab
  rw [String.length_append] at hl
  refine eq_empty_of_length_zero ?_
  have : String.length "" = 0 := rfl
  omega

theorem append_ne_empty_left (a b : String) (ha : a ≠ "") : a ++ b ≠ "" := by
  intro hab
  apply ha
  have hl := congrArg String.length hab
  rw [String.length_append] at hl
  refine eq_empty_of_length_zero ?_
  have : String.length "" = 0 := rfl
  omega

theorem time_units_ne_empty (hours minutes seconds : Nat)
    (h : hours ≠ 0 ∨ minutes ≠ 0 ∨ seconds ≠ 0) :
    time_units hours minutes seconds ≠ "" := by
  rw [time_units]
  rcases h with hh | hm | hs
  · rw [if_neg hh]
    exact append_ne_empty_left _ _ (append_ne_empty_left _ _
      (append_ne_empty_right _ _ (by decide)))
  · rw [if_neg hm]
    exact append_ne_empty_left _ _
      (append_ne_empty_right _ _ (append_ne_empty_right _ _ (by decide)))
  · rw [if_neg hs]
    exact append_ne_empty_right _ _ (append_ne_empty_right _ _ (by decide))

/-- Counterexample for C8 as stated: at an ETA of 86400 seconds (one day)
`str(timedelta)` is `'1 day, 0:00:00'`, so `int('1 day, 0')` raises
`ValueError` and `_parse_time` produces nothing at all, while the claimed
format would be `"24 hours left"`. -/
theorem parse_time_counterexample :
    parse_time 86400 = none ∧ spec_time_left_format 86400 = "24 hours left" := by
  decide

/-- C8 (amended): for every ETA below one day (86400 seconds) `_parse_time`
formats the remaining time as hours, minutes and seconds with
singular/plural unit names, omitting zero-valued units, followed by "left";
0 seconds yields the empty string, 90 seconds yields
"1 minute 30 seconds left", 3661 seconds yields
"1 hour 1 minute 1 second left".  (From one day upwards the code raises
`ValueError` instead, see `parse_time_counterexample`.) -/
theorem parse_time_formats :
    (∀ eta : Nat, eta < 86400 → parse_time eta = some (spec_time_left_format eta)) ∧
    parse_time 0 = some "" ∧
    parse_time 90 = some "1 minute 30 seconds left" ∧
    parse_time 3661 = some "1 hour 1 minute 1 second left" := by
  refine ⟨?_, by decide, by decide, by decide⟩
  intro eta h
  unfold parse_time
  rw [if_neg (by omega)]
  by_cases h0 : eta = 0
  · subst h0; rfl
  · have hunit : eta / 3600 ≠ 0 ∨ eta % 3600 / 60 ≠ 0 ∨ eta % 60 ≠ 0 := by omega
    have hne := time_units_ne_empty (eta / 3600) (eta % 3600 / 60) (eta % 60) hunit
    show some (if (if eta = 0 then "" else
        time_units (eta / 3600) (eta % 3600 / 60) (eta % 60)) ≠ "" then
        (if eta = 0 then "" else
          time_units (eta / 3600) (eta % 3600 / 60) (eta % 60)) ++ "left"
      else "") = some (spec_time_left_format eta)
    rw [if_neg h0, if_pos hne, spec_time_left_format, if_neg h0]
    rfl

/-- The head of one application of Python's `rsplit('.', 1)`: everything
before the last dot (the whole string when there is no dot).  Applying it
twice yields `filename.rsplit('.', 2)[0]`, the part of `filename` before its
second-to-last dot. -/
def cutLastDot (cs : List Char) : List Char :=
  match rindexOf '.' cs with
  | none => cs
  | some d => cs.take d

/-- The extension `Downloader._map_filename` resolves entries to
(src/main.py:215): `'m4a' if settings['novideo'] else 'mp4'`. -/
def map_filename_ext (novideo : Bool) : List Char :=
  if novideo then "m4a".data else "mp4".data

/-- The resolved name `_map_filename` writes into the link store
(src/main.py:222): `f"{filename.rsplit('.', 2)[0]}.{ext}"`. -/
def resolved_name (novideo : Bool) (fname : List Char) : List Char :=
  cutLastDot (cutLastDot fname) ++ '.' :: map_filename_ext novideo

/-- The `for i, link in enumerate(all_links)` loop of
`Downloader._map_filename` (src/main.py:218-224): skip entries whose
filename is already set (`if link[1]: continue` — Python truthiness of the
string), and at the first remaining entry whose URL equals the worker's
current URL write the resolved filename into the entry and stop (`break`);
`none` when the loop runs off the end without writing. -/
def mapLoop (target newname : List Char) :
    List (List Char × List Char) → Option (List (List Char × List Char))
  | [] => none
  | e :: rest =>
    if e.2 ≠ [] then (mapLoop target newname rest).map fun r => e :: r
    else if e.1 = target then some ((e.1, newname) :: rest)
    else (mapLoop target newname rest).map fun r => e :: r

/-- `Downloader._map_filename` (src/main.py:208-224) as a state transition on
the shared link store: `wlinks` is this worker's URL partition
(`self.links`), `cur` its cursor (`self.current`), `all` the shared
`all_links`, `fname` the output file of the current progress event.  Under
the guard `len(self.links) > self.current` the loop may write one entry, and
the cursor advances exactly when it did. -/
def map_filename (novideo : Bool) (wlinks : List (List Char)) (cur : Nat)
    (all : List (List Char × List Char)) (fname : List Char) :
    List (List Char × List Char) × Nat :=
  if h : cur < wlinks.length then
    match mapLoop (wlinks.get ⟨cur, h⟩) (resolved_name novideo fname) all with
    | some all2 => (all2, cur + 1)
    | none => (all, cur)
  else (all, cur)

/-- C3, evaluated at the failing input: a worker owning the two URLs
`u1, u2` receives two successive `downloading` events for the same output
file `vid.mp4`.  The first event maps `u1` to `vid.mp4` and advances the
cursor; the second event — same file, no new file first seen — advances the
cursor again and maps `u2` to the very same filename.  `_map_filename` keeps
no record of which output files have already been seen, so the cursor
advances on every `downloading` event rather than once per distinct file,
contradicting the claim (and the spec's stated matching discipline). -/
theorem map_filename_advances_every_event :
    map_filename false ["u1".data, "u2".data] 0
        [("u1".data, []), ("u2".data, [])] "vid.mp4".data
      = ([("u1".data, "vid.mp4".data), ("u2".data, [])], 1) ∧
    map_filename false ["u1".data, "u2".data] 1
        [("u1".data, "vid.mp4".data), ("u2".data, [])] "vid.mp4".data
      = ([("u1".data, "vid.mp4".data), ("u2".data, "vid.mp4".data)], 2) := by
  decide

theorem mapLoop_preserves (t n : List Char) :
    ∀ all all2 : List (List Char × List Char), mapLoop t n all = some all2 →
      all2.length = all.length ∧
      ∀ (i : Nat) (e : List Char × List Char),
        all[i]? = some e → e.2 ≠ [] → all2[i]? = some e := by
  intro all
  induction all with
  | nil => intro all2 h; simp [mapLoop] at h
  | cons a rest ih =>
    intro all2 h
    simp only [mapLoop] at h
    by_cases ha : a.2 ≠ []
    · rw [if_pos ha] at h
      obtain ⟨r, hr, rfl⟩ := Option.map_eq_some'.1 h
      obtain ⟨hlen, hidx⟩ := ih r hr
      refine ⟨by simp [hlen], ?_⟩
      intro i e hie hne
      cases i with
      | zero => simpa using hie
      | succ j =>
        rw [List.getElem?_cons_succ] at hie ⊢
        exact hidx j e hie hne
    · rw [if_neg ha] at h
      by_cases hurl : a.1 = t
      · rw [if_pos hurl] at h
        obtain rfl := Option.some.inj h.symm
        refine ⟨by simp, ?_⟩
        intro i e hie hne
        cases i with
        | zero =>
          exfalso
          rw [List.getElem?_cons_zero] at hie
          obtain rfl := Option.some.inj hie.symm
          exact hne (by simpa using ha)
        | succ j => simpa using hie
      · rw [if_neg hurl] at h
        obtain ⟨r, hr, rfl⟩ := Option.map_eq_some'.1 h
        obtain ⟨hlen, hidx⟩ := ih r hr
        refine ⟨by simp [hlen], ?_⟩
        intro i e hie hne
        cases i with
        | zero => simpa using hie
        | succ j =>
          rw [List.getElem?_cons_succ] at hie ⊢
          exact hidx j e hie hne

theorem map_filename_preserves (novideo : Bool) (wlinks : List (List Char))
    (cur : Nat) (all : List (List Char × List Char)) (fname : List Char) :
    ((map_filename novideo wlinks cur all fname).1).length = all.length ∧
    ∀ (i : Nat) (e : List Char × List Char),
      all[i]? = some e → e.2 ≠ [] →
      ((map_filename novideo wlinks cur all fname).1)[i]? = some e := by
  unfold map_filename
  split
  · split
    · rename_i all2 hm
      exact mapLoop_preserves _ _ all all2 hm
    · exact ⟨rfl, fun i e h _ => h⟩
  · exact ⟨rfl, fun i e h _ => h⟩

/-- One interleaving step of a run: some worker's progress callback applies
`_map_filename` to the shared link store with that worker's own partition,
cursor and event filename.  Quantifying over arbitrary argument tuples
covers every schedule of every set of workers. -/
def applyMap (all : List (List Char × List Char))
    (args : Bool × List (List Char) × Nat × List Char) :
    List (List Char × List Char) :=
  (map_filename args.1 args.2.1 args.2.2.1 all args.2.2.2).1

/-- The shared link store after an arbitrary interleaved sequence of
`_map_filename` calls. -/
def runTrace (all : List (List Char × List Char))
    (trace : List (Bool × List (List Char) × Nat × List Char)) :
    List (List Char × List Char) :=
  trace.foldl applyMap all

/-- C9: along any interleaved sequence of `_map_filename` calls by any
workers, a link entry whose resolved-filename field holds a non-empty value
is never changed again — every later call skips it (`if link[1]: continue`)
and only ever writes an entry whose filename is still empty — and no entry
is ever added to or removed from the link list. -/
theorem link_entry_write_once
    (trace : List (Bool × List (List Char) × Nat × List Char))
    (all : List (List Char × List Char)) (i : Nat) (e : List Char × List Char)
    (h1 : all[i]? = some e) (h2 : e.2 ≠ []) :
    (runTrace all trace)[i]? = some e ∧ (runTrace all trace).length = all.length := by
  induction trace generalizing all with
  | nil => exact ⟨h1, rfl⟩
  | cons args rest ih =>
    have hp := map_filename_preserves args.1 args.2.1 args.2.2.1 all args.2.2.2
    have h1' : (applyMap all args)[i]? = some e := hp.2 i e h1 h2
    have hrest := ih (applyMap all args) h1'
    rw [runTrace, List.foldl_cons]
    rw [runTrace] at hrest
    exact ⟨hrest.1, hrest.2.trans hp.1⟩

/-- Witness for C9: a one-entry store whose entry is already resolved to
`a.mp4` survives a progress event for a different file `b.mp4` untouched. -/
theorem link_entry_write_once_witness :
    (runTrace [("u1".data, "a.mp4".data)]
        [(false, ["u1".data], 0, "b.mp4".data)])[0]?
      = some ("u1".data, "a.mp4".data) ∧
    (runTrace [("u1".data, "a.mp4".data)]
        [(false, ["u1".data], 0, "b.mp4".data)]).length = 1 :=
  link_entry_write_once [(false, ["u1".data], 0, "b.mp4".data)]
    [("u1".data, "a.mp4".data)] 0 ("u1".data, "a.mp4".data) (by decide) (by decide)

/-- Matching of `glob.glob(destination + '*.' + ext)` against the base name
of a destination file: the pattern `*.ext` matches a name ending in `.ext`,
and glob's `*` never matches a leading dot, so hidden files are excluded. -/
def globMatch (ext : List Char) (f : List Char) : Bool :=
  (f.head? != some '.') && ('.' :: ext).isSuffixOf f

/-- The extension scanned by `print_output` (src/main.py:67):
`'m4a' if settings['novideo'] else 'mkv'`. -/
def print_output_ext (novideo : Bool) : List Char :=
  if novideo then "m4a".data else "mkv".data

/-- The extension scanned by `end()` (src/main.py:412):
`'m4a' if settings['novideo'] else 'mp4'`. -/
def end_ext (novideo : Bool) : List Char :=
  if novideo then "m4a".data else "mp4".data

/-- The `merge_output_format` handed to the engine in `Downloader.__init__`
(src/main.py:158): always `'mp4'`. -/
def merge_output_format : List Char := "mp4".data

/-- The `Completed:` header count computed by `print_output`
(src/main.py:68): the number of destination files matching `*.` + ext. -/
def print_output_count (novideo : Bool) (destFiles : List (List Char)) : Nat :=
  (destFiles.filter fun f => globMatch (print_output_ext novideo) f).length

/-- The observable outcome of `end()` (src/main.py:402-430): the matching
destination scan, the failed entries, the contents written to `failed.txt`
(`none` when the file is not written at all) and the lines printed after the
screen is cleared, in order. -/
structure EndResult where
  downloaded : List (List Char)
  failed : List (List Char × List Char)
  failedFile : Option (List (List Char))
  messages : List (List Char)
deriving DecidableEq

/-- `end()` (src/main.py:402-430) as a function of the mode, the base names
of the files present in the destination directory, and the link store:
`downloaded` is the `*.mp4` (or `*.m4a` in audio mode) scan, `failed` the
entries whose resolved filename is not among the scanned files.  When
`len(downloaded) == len(all_links)` it prints `Download Complete!` and never
touches `failed.txt`; otherwise it truncates `failed.txt`, writes the failed
URLs one per line, and prints a failure notice.  The two per-count lines are
printed unconditionally afterwards. -/
def end_model (novideo : Bool) (destFiles : List (List Char))
    (links : List (List Char × List Char)) : EndResult :=
  let downloaded := destFiles.filter fun f => globMatch (end_ext novideo) f
  let failed := links.filter fun e => !downloaded.contains e.2
  let cMsg := "\nCompleted: ".data ++ (toString downloaded.length).data
      ++ "/".data ++ (toString links.length).data
  let fMsg := "Failed: ".data ++ (toString failed.length).data
      ++ "/".data ++ (toString links.length).data
  if downloaded.length = links.length then
    ⟨downloaded, failed, none, ["Download Complete!".data, cMsg, fMsg]⟩
  else
    ⟨downloaded, failed, some (failed.map Prod.fst),
      ["\nDownload Failed!\nCheck 'failed.txt' for failed links.".data, cMsg, fMsg]⟩

/-- C5: with the destination holding exactly `a.mp4` and `b.mp4` (video
mode) and three links of which the first two resolved to `a.mp4` and `b.mp4`
while the third resolved to anything else (or nothing), `end()` writes
exactly the third URL to `failed.txt` and reports `Completed: 2/3` and
`Failed: 1/3`. -/
theorem end_reconciliation (u1 u2 u3 f3 : List Char)
    (h1 : f3 ≠ "a.mp4".data) (h2 : f3 ≠ "b.mp4".data) :
    end_model false ["a.mp4".data, "b.mp4".data]
        [(u1, "a.mp4".data), (u2, "b.mp4".data), (u3, f3)]
      = ⟨["a.mp4".data, "b.mp4".data], [(u3, f3)], some [u3],
         ["\nDownload Failed!\nCheck 'failed.txt' for failed links.".data,
          "\nCompleted: 2/3".data, "Failed: 1/3".data]⟩ := by
  have hdl : (["a.mp4".data, "b.mp4".data].filter
      fun f => globMatch (end_ext false) f) = ["a.mp4".data, "b.mp4".data] := by
    decide
  have hc3 : (["a.mp4".data, "b.mp4".data].contains f3) = false := by
    simp only [List.contains, List.elem_cons, List.elem_nil]
    rw [beq_false_of_ne h1, beq_false_of_ne h2]
  have hfl : ([(u1, "a.mp4".data), (u2, "b.mp4".data), (u3, f3)].filter
      fun e => !(["a.mp4".data, "b.mp4".data].contains e.2)) = [(u3, f3)] := by
    simp only [List.filter_cons, List.filter_nil, hc3]
    norm_num
  have hlen2 : (["a.mp4".data, "b.mp4".data] : List (List Char)).length = 2 := rfl
  have hlen3 : [(u1, "a.mp4".data), (u2, "b.mp4".data), (u3, f3)].length = 3 := rfl
  have hlen1 : [(u3, f3)].length = 1 := rfl
  simp only [end_model, hdl, hfl, hlen2, hlen3, hlen1]
  rw [if_neg (by decide)]
  rfl

/-- Witness for C5: the reconciliation scenario at concrete URLs, the third
link unresolved (empty filename). -/
theorem end_reconciliation_witness :
    end_model false ["a.mp4".data, "b.mp4".data]
        [("u1".data, "a.mp4".data), ("u2".data, "b.mp4".data), ("u3".data, [])]
      = ⟨["a.mp4".data, "b.mp4".data], [("u3".data, [])], some ["u3".data],
         ["\nDownload Failed!\nCheck 'failed.txt' for failed links.".data,
          "\nCompleted: 2/3".data, "Failed: 1/3".data]⟩ :=
  end_reconciliation "u1".data "u2".data "u3".data [] (by decide) (by decide)

/-- Counterexample for C6 as stated: in a run where every expected file is
present (one link, resolved to `a.mp4`, and the destination holding exactly
`a.mp4`), `end()` prints the full-success message AND the per-count
completed/failed lines — the counts are not replaced by the full-success
message, they are printed in every case (src/main.py:429-430 sit outside
the if/else). -/
theorem end_counts_always_counterexample :
    "Download Complete!".data
        ∈ (end_model false ["a.mp4".data] [("u".data, "a.mp4".data)]).messages ∧
    "\nCompleted: 1/1".data
        ∈ (end_model false ["a.mp4".data] [("u".data, "a.mp4".data)]).messages ∧
    "Failed: 0/1".data
        ∈ (end_model false ["a.mp4".data] [("u".data, "a.mp4".data)]).messages := by
  decide

theorem downloadComplete_ne_completedLine (X : List Char) :
    "Download Complete!".data ≠ "\nCompleted: ".data ++ X := by
  intro h
  have hhd : (some 'D' : Option Char) = some '\n' := by
    calc (some 'D' : Option Char)
        = ("Download Complete!".data).head? := rfl
      _ = ("\nCompleted: ".data ++ X).head? := congrArg List.head? h
      _ = some '\n' := rfl
  exact absurd hhd (by decide)

theorem downloadComplete_ne_failedLine (X : List Char) :
    "Download Complete!".data ≠ "Failed: ".data ++ X := by
  intro h
  have hhd : (some 'o' : Option Char) = some 'a' := by
    calc (some 'o' : Option Char)
        = ("Download Complete!".data).tail.head? := rfl
      _ = ("Failed: ".data ++ X).tail.head? := by rw [h]
      _ = some 'a' := rfl
  exact absurd hhd (by decide)

/-- C6 (amended): at end-of-run the full-success message is printed, and the
failure file left unwritten, exactly when the number of matching destination
files equals the number of links; but the per-count `Completed:`/`Failed:`
lines are printed in every case (they are not replaced by the full-success
message), and a destination-file count can match the link count even when
some expected file is missing, since unrelated pre-existing matching files
are counted too. -/
theorem end_full_success_and_counts (novideo : Bool) (destFiles : List (List Char))
    (links : List (List Char × List Char)) :
    ("Download Complete!".data ∈ (end_model novideo destFiles links).messages ↔
      (end_model novideo destFiles links).downloaded.length = links.length) ∧
    ((end_model novideo destFiles links).failedFile = none ↔
      (end_model novideo destFiles links).downloaded.length = links.length) ∧
    ("\nCompleted: ".data
        ++ (toString (end_model novideo destFiles links).downloaded.length).data
        ++ "/".data ++ (toString links.length).data)
      ∈ (end_model novideo destFiles links).messages ∧
    ("Failed: ".data
        ++ (toString (end_model novideo destFiles links).failed.length).data
        ++ "/".data ++ (toString links.length).data)
      ∈ (end_model novideo destFiles links).messages := by
  by_cases hEq : (destFiles.filter fun f => globMatch (end_ext novideo) f).length
      = links.length
  · simp only [end_model, if_pos hEq]
    refine ⟨by simp [hEq], by simp [hEq], ?_, ?_⟩
    · simp [List.append_assoc]
    · simp [List.append_assoc]
  · simp only [end_model, if_neg hEq]
    refine ⟨?_, by simp [hEq], ?_, ?_⟩
    · simp only [List.mem_cons, List.not_mem_nil]
      constructor
      · rintro (h | h | h | h)
        · exact absurd h (by decide)
        · rw [List.append_assoc, List.append_assoc] at h
          exact absurd h (downloadComplete_ne_completedLine _)
        · rw [List.append_assoc, List.append_assoc] at h
          exact absurd h (downloadComplete_ne_failedLine _)
        · exact absurd h (by simp)
      · intro h
        exact absurd h hEq
    · simp [List.append_assoc]
    · simp [List.append_assoc]

theorem globMatch_mp4_not_mkv (f : List Char)
    (h : globMatch "mp4".data f = true) : globMatch "mkv".data f = false := by
  rw [globMatch, Bool.and_eq_true] at h
  have hsuf : ('.' :: "mp4".data) <:+ f := List.isSuffixOf_iff_suffix.1 h.2
  obtain ⟨t, rfl⟩ := hsuf
  have hmkv : (('.' :: "mkv".data).isSuffixOf (t ++ '.' :: "mp4".data)) = false := by
    by_contra hb
    have hs : ('.' :: "mkv".data) <:+ (t ++ '.' :: "mp4".data) :=
      List.isSuffixOf_iff_suffix.1 (Bool.not_eq_false _ ▸ hb)
    obtain ⟨t2, heq⟩ := hs
    have h1 : (t2 ++ '.' :: "mkv".data).reverse.head? = some 'v' := by
      rw [List.reverse_append]; rfl
    have h2 : (t ++ '.' :: "mp4".data).reverse.head? = some '4' := by
      rw [List.reverse_append]; rfl
    rw [heq, h2] at h1
    exact absurd h1 (by decide)
  rw [globMatch, hmkv, Bool.and_false]

/-- C10: in video mode the header count of `print_output` scans `*.mkv`
while `_map_filename` and `end()` resolve and scan `*.mp4` — matching the
`merge_output_format: 'mp4'` given to the engine — so the header's on-disk
count excludes every `.mp4` file the engine produces: no `*.mp4`-matching
file matches `*.mkv`, and dropping all of them from the destination leaves
the header count unchanged. -/
theorem print_output_header_ext_mismatch :
    print_output_ext false = "mkv".data ∧
    map_filename_ext false = merge_output_format ∧
    end_ext false = merge_output_format ∧
    (∀ f : List Char, globMatch merge_output_format f = true →
      globMatch (print_output_ext false) f = false) ∧
    (∀ destFiles : List (List Char),
      print_output_count false destFiles
        = print_output_count false
            (destFiles.filter fun f => !globMatch merge_output_format f)) := by
  refine ⟨rfl, rfl, rfl, ?_, ?_⟩
  · intro f h
    exact globMatch_mp4_not_mkv f h
  · intro destFiles
    unfold print_output_count
    congr 1
    induction destFiles with
    | nil => rfl
    | cons f rest ih =>
      by_cases hb : globMatch merge_output_format f = true
      · have hmkv : globMatch (print_output_ext false) f = false :=
          globMatch_mp4_not_mkv f hb
        simp [List.filter_cons, hb, hmkv, ih]
      · rw [Bool.not_eq_true] at hb
        simp [List.filter_cons, hb, ih]

end VideoDL
